import Mathlib

/-!
Verification of the Expense-Tracker ledger store (src/app.py).

Shallow embedding of the data layer of `src/app.py`: the SQLite-backed
`transactions` and `categories` tables and the operations
`init_db`, `get_categories`, `add_category`, `add_transaction`,
`get_transactions`, `get_balance`, `get_monthly_summary`, and the
CSV export of the Transaction History page.

Modelling conventions:
* SQLite `TEXT` columns are `String`; `REAL` amounts are `Rat`
  (exact arithmetic stands in for SQL numeric summation);
  `DATE` values are the ISO `YYYY-MM-DD` strings that `sqlite3`
  stores for Python `date` objects, compared lexicographically
  exactly as SQLite's BINARY collation compares them.
* `INTEGER PRIMARY KEY AUTOINCREMENT` is modelled by a `nextId`
  counter starting at 1 that only ever increases (AUTOINCREMENT
  never reuses a rowid, even after deletions).
* `created_at TIMESTAMP DEFAULT CURRENT_TIMESTAMP` is modelled by
  passing the environment-supplied current timestamp to
  `add_transaction` as an explicit argument.
* A Python function that falls off the end returns `None`; this is
  embedded as an `Option` result that is `none`.
-/

/-- Byte-wise (code-point-wise) lexicographic comparison of character
lists: how SQLite's default BINARY collation orders the ASCII date and
name strings this application stores. -/
def charsLe : List Char → List Char → Bool
  | [], _ => true
  | _ :: _, [] => false
  | a :: as, b :: bs => if a = b then charsLe as bs else decide (a < b)

/-- Relation `strLe a b`: SQLite BINARY-collation string comparison `a <= b`. -/
def strLe (a b : String) : Bool := charsLe a.data b.data

/-- Insert into a sorted list, keeping earlier elements first on ties. -/
def insertLe {α : Type} (le : α → α → Bool) (x : α) : List α → List α
  | [] => [x]
  | y :: ys => if le x y then x :: y :: ys else y :: insertLe le x ys

/-- Insertion sort by a Boolean comparison: the model of SQL `ORDER BY`. -/
def sortBy {α : Type} (le : α → α → Bool) : List α → List α
  | [] => []
  | x :: xs => insertLe le x (sortBy le xs)

/-- One row of the `transactions` table
(`id, type, amount, category, date, description, created_at`). -/
structure Txn where
  id : Nat
  type : String
  amount : Rat
  category : String
  date : String
  description : String
  created_at : String
deriving DecidableEq, Repr

/-- One row of the `categories` table (`id, name UNIQUE, type`). -/
structure Cat where
  id : Nat
  name : String
  type : String
deriving DecidableEq, Repr

/-- The database state: both tables plus their AUTOINCREMENT counters. -/
structure Store where
  txns : List Txn
  txnNextId : Nat
  cats : List Cat
  catNextId : Nat
deriving DecidableEq, Repr

/-- A freshly created database: both tables empty, rowids start at 1. -/
def emptyStore : Store := ⟨[], 1, [], 1⟩

/-- The names currently in the `categories` table (its UNIQUE column). -/
def catNames (s : Store) : List String := s.cats.map Cat.name

/-- Statement `INSERT INTO categories (name, type) VALUES (?, ?)` wrapped in
`try/except sqlite3.IntegrityError: pass` (app.py lines 38-48):
the UNIQUE constraint on `name` makes the insert a no-op when the
name is already present, whatever its type. -/
def insertCatIgnore (s : Store) (name ty : String) : Store :=
  if name ∈ catNames s then s
  else { s with cats := s.cats ++ [⟨s.catNextId, name, ty⟩],
                catNextId := s.catNextId + 1 }

/-- List `default_expense_categories` (app.py line 35). -/
def default_expense_categories : List String :=
  ["Food", "Transport", "Housing", "Entertainment", "Healthcare",
   "Education", "Shopping", "Others"]

/-- List `default_income_categories` (app.py line 36). -/
def default_income_categories : List String :=
  ["Salary", "Bonus", "Freelance", "Investment", "Gift", "Others"]

/-- Function `init_db` (app.py lines 14-51): table creation is `IF NOT EXISTS`
(invisible in this model), then every default expense category and
every default income category is inserted with duplicates ignored. -/
def init_db (s : Store) : Store :=
  let s1 := default_expense_categories.foldl
    (fun st n => insertCatIgnore st n "expense") s
  default_income_categories.foldl
    (fun st n => insertCatIgnore st n "income") s1

/-- Function `get_categories` (app.py lines 59-65):
`SELECT name FROM categories WHERE type = ? ORDER BY name`. -/
def get_categories (s : Store) (transaction_type : String) : List String :=
  sortBy strLe
    ((s.cats.filter (fun c => c.type = transaction_type)).map Cat.name)

/-- Function `add_category` (app.py lines 67-77): the insert raises
`sqlite3.IntegrityError` exactly when `name` violates the UNIQUE
constraint, which the function converts to `False`; otherwise one
row is inserted and it returns `True`. -/
def add_category (s : Store) (name transaction_type : String) :
    Store × Bool :=
  if name ∈ catNames s then (s, false)
  else ({ s with cats := s.cats ++ [⟨s.catNextId, name, transaction_type⟩],
                 catNextId := s.catNextId + 1 }, true)

/-- Function `add_transaction` (app.py lines 79-85): inserts one row with the five
given values, the fresh AUTOINCREMENT id and the current timestamp
(`now`), and returns `None` (the Python function has no `return`). -/
def add_transaction (s : Store) (transaction_type : String) (amount : Rat)
    (category date description : String) (now : String) :
    Store × Option Nat :=
  ({ s with
      txns := s.txns ++
        [⟨s.txnNextId, transaction_type, amount, category, date,
          description, now⟩],
      txnNextId := s.txnNextId + 1 }, none)

/-- Python truthiness of an optional string argument:
`if start_date:` is `False` for `None` and for the empty string. -/
def truthyStr : Option String → Bool
  | none => false
  | some s => s ≠ ""

/-- Python truthiness of an optional list argument:
`if categories:` is `False` for `None` and for the empty list. -/
def truthyList : Option (List String) → Bool
  | none => false
  | some l => l ≠ []

/-- The WHERE clause built by `get_transactions` (app.py lines 89-103):
starts from `1=1` and appends one AND-conjunct per truthy argument. -/
def matchesFilters (start_date end_date : Option String)
    (categories : Option (List String)) (transaction_type : Option String)
    (t : Txn) : Bool :=
  (if truthyStr start_date then
      strLe (start_date.getD "") t.date else true) &&
  (if truthyStr end_date then
      strLe t.date (end_date.getD "") else true) &&
  (if truthyList categories then
      decide (t.category ∈ categories.getD []) else true) &&
  (if truthyStr transaction_type then
      decide (t.type = transaction_type.getD "") else true)

/-- Function `get_transactions` (app.py lines 87-109): `SELECT * FROM transactions`
with the dynamically built WHERE clause, then `ORDER BY date DESC`. -/
def get_transactions (s : Store) (start_date end_date : Option String)
    (categories : Option (List String))
    (transaction_type : Option String) : List Txn :=
  sortBy (fun a b => strLe b.date a.date)
    (s.txns.filter
      (matchesFilters start_date end_date categories transaction_type))

/-- Query `SELECT COALESCE(SUM(amount), 0) FROM transactions WHERE type = ?`:
the COALESCE makes the empty-selection sum exactly 0. -/
def sumAmountsOfType (s : Store) (ty : String) : Rat :=
  ((s.txns.filter (fun t => t.type = ty)).map Txn.amount).sum

/-- Function `get_balance` (app.py lines 111-116). -/
def get_balance (s : Store) : Rat :=
  sumAmountsOfType s "income" - sumAmountsOfType s "expense"

/-- Model of `strftime('%Y-%m', date)` for the ISO `YYYY-MM-DD` strings this
application stores: the first seven characters (`YYYY-MM`) of the date. -/
def monthKey (d : String) : String := ⟨d.data.take 7⟩

/-- One row of the `get_monthly_summary` result set. -/
structure MonthRow where
  month : String
  income : Rat
  expense : Rat
  balance : Rat
deriving DecidableEq, Repr

/-- The distinct `strftime('%Y-%m', date)` grouping keys, in the
`ORDER BY month DESC` output order. -/
def monthKeys (s : Store) : List String :=
  sortBy (fun a b => strLe b a)
    ((s.txns.map (fun t => monthKey t.date)).dedup)

/-- The result row the GROUP BY clause of `get_monthly_summary` builds for
one grouping key `m`:
`SUM(CASE WHEN type = 'income' THEN amount ELSE 0 END)` as income,
`SUM(CASE WHEN type = 'expense' THEN amount ELSE 0 END)` as expense and
`SUM(CASE WHEN type = 'income' THEN amount ELSE -amount END)` as balance,
each summed over the rows of group `m`. -/
def monthRowOf (s : Store) (m : String) : MonthRow :=
  { month := m
    income := ((s.txns.filter (fun t => monthKey t.date = m)).map
      (fun t => if t.type = "income" then t.amount else 0)).sum
    expense := ((s.txns.filter (fun t => monthKey t.date = m)).map
      (fun t => if t.type = "expense" then t.amount else 0)).sum
    balance := ((s.txns.filter (fun t => monthKey t.date = m)).map
      (fun t => if t.type = "income" then t.amount else -t.amount)).sum }

/-- Function `get_monthly_summary` (app.py lines 118-132): one `monthRowOf` row per
distinct month grouping key. -/
def get_monthly_summary (s : Store) : List MonthRow :=
  (monthKeys s).map (monthRowOf s)

/-- Modelled from the spec: `deleteTransaction(id)` has no implementation
in src/app.py (no delete function or DELETE statement exists there);
per the spec it removes the row with the given surrogate key if present
and a non-existent id is a silent no-op. The AUTOINCREMENT counter is
untouched, so ids are never reused. -/
def delete_transaction (s : Store) (id : Nat) : Store :=
  { s with txns := s.txns.filter (fun t => t.id ≠ id) }

/-- The column headers of the DataFrame returned by `get_transactions`
(`SELECT *` over the `transactions` table, in schema order). -/
def csvHeader : List String :=
  ["id", "type", "amount", "category", "date", "description", "created_at"]

/-- The CSV data-row fields of one transaction, in schema column order. -/
def csvFields (t : Txn) : List String :=
  [toString t.id, t.type, toString t.amount, t.category, t.date,
   t.description, t.created_at]

/-- Model of `transactions.to_csv(index=False)` (app.py line 238), at the
granularity of rows of fields: the header row followed by one data row
per transaction of the result set. -/
def to_csv (rows : List Txn) : List (List String) :=
  csvHeader :: rows.map csvFields

/-! ## Generic facts about the `ORDER BY` model -/

theorem insertLe_perm {α : Type} (le : α → α → Bool) (x : α) (l : List α) :
    (insertLe le x l).Perm (x :: l) := by
  induction l with
  | nil => simp [insertLe]
  | cons y ys ih =>
    simp only [insertLe]
    split
    · exact List.Perm.refl _
    · exact (ih.cons y).trans (List.Perm.swap x y ys)

theorem sortBy_perm {α : Type} (le : α → α → Bool) (l : List α) :
    (sortBy le l).Perm l := by
  induction l with
  | nil => simp [sortBy]
  | cons x xs ih => exact (insertLe_perm le x _).trans (ih.cons x)

theorem mem_sortBy {α : Type} {le : α → α → Bool} {x : α} {l : List α} :
    x ∈ sortBy le l ↔ x ∈ l :=
  (sortBy_perm le l).mem_iff

theorem length_sortBy {α : Type} (le : α → α → Bool) (l : List α) :
    (sortBy le l).length = l.length :=
  (sortBy_perm le l).length_eq

theorem nodup_sortBy {α : Type} {le : α → α → Bool} {l : List α}
    (h : l.Nodup) : (sortBy le l).Nodup :=
  ((sortBy_perm le l).nodup_iff).mpr h

/-! ## Summation helpers -/

theorem sum_map_filter_eq_foldl {α : Type} (p : α → Prop) [DecidablePred p]
    (f : α → Rat) (l : List α) (a : Rat) :
    l.foldl (fun acc t => if p t then acc + f t else acc) a =
      a + ((l.filter (fun t => decide (p t))).map f).sum := by
  induction l generalizing a with
  | nil => simp
  | cons x xs ih =>
    by_cases hx : p x
    · simp [hx, ih, add_assoc]
    · simp [hx, ih]

/-! ## C1: the balance aggregate -/

/-- The spec's balance formula, written from its words rather than from
`get_balance`: running total of Income amounts minus running total of
Expense amounts over the whole table. -/
def balance_spec (s : Store) : Rat :=
  s.txns.foldl (fun acc t => if t.type = "income" then acc + t.amount else acc) 0
    - s.txns.foldl (fun acc t => if t.type = "expense" then acc + t.amount else acc) 0

/-- C1: for every state of the transactions table, `get_balance` equals
the sum of Income amounts minus the sum of Expense amounts; on an empty
table both sums are zero and the balance is exactly `0` (a number, never
a null), thanks to the `COALESCE(SUM(amount), 0)`. -/
theorem get_balance_eq_income_sub_expense (s : Store) :
    get_balance s = balance_spec s ∧
    (s.txns = [] → get_balance s = 0) ∧
    get_balance emptyStore = 0 := by
  refine ⟨?_, ?_, ?_⟩
  · simp [get_balance, balance_spec, sumAmountsOfType,
      sum_map_filter_eq_foldl]
  · intro h
    simp [get_balance, sumAmountsOfType, h]
  · simp [get_balance, sumAmountsOfType, emptyStore]

/-- Witness for C1 at the empty store. -/
theorem get_balance_eq_income_sub_expense_witness :
    get_balance emptyStore = balance_spec emptyStore ∧
    get_balance emptyStore = 0 :=
  ⟨(get_balance_eq_income_sub_expense emptyStore).1,
   (get_balance_eq_income_sub_expense emptyStore).2.1 rfl⟩

/-! ## C7: what `add_transaction` inserts and returns -/

/-- C7 counterexample: `add_transaction` on a fresh store inserts the row
with the newly assigned surrogate id 1, but the Python function has no
`return` statement, so the caller receives `None` — not the new id. -/
theorem add_transaction_does_not_return_id :
    (add_transaction emptyStore "income" 5 "Salary" "2024-01-01" "" "ts").1.txns.map
        Txn.id = [1] ∧
    (add_transaction emptyStore "income" 5 "Salary" "2024-01-01" "" "ts").2 = none ∧
    (add_transaction emptyStore "income" 5 "Salary" "2024-01-01" "" "ts").2 ≠
      some 1 := by
  decide

/-- C7 amended: `add_transaction(type, amount, category, date, description)`
appends exactly one row carrying the five given attribute values, the fresh
surrogate id and the current timestamp, bumps the AUTOINCREMENT counter, and
leaves the categories table untouched — but it returns `None` to the caller,
not the newly assigned id. -/
theorem add_transaction_inserts_one_row (s : Store) (ty : String) (a : Rat)
    (c d de now : String) :
    (add_transaction s ty a c d de now).1.txns =
      s.txns ++ [⟨s.txnNextId, ty, a, c, d, de, now⟩] ∧
    (add_transaction s ty a c d de now).1.txnNextId = s.txnNextId + 1 ∧
    (add_transaction s ty a c d de now).1.cats = s.cats ∧
    (add_transaction s ty a c d de now).2 = none :=
  ⟨rfl, rfl, rfl, rfl⟩

/-! ## C9: the CSV export of the Transaction History page -/

/-- A concrete one-row transaction table used as explicit input in
counterexamples. -/
def exTxn1 : Txn := ⟨1, "income", 5, "Salary", "2024-01-01", "", "ts"⟩

/-- A store holding only `exTxn1`. -/
def exStore1 : Store := ⟨[exTxn1], 2, [], 1⟩

/-- C9 counterexample: the exported DataFrame is the raw `SELECT *` result,
so the CSV header row is `id,type,amount,category,date,description,created_at`
— it is not the five visible columns `date,type,category,description,amount`
(the `drop(columns=['id'])` on line 233 of app.py only affects the displayed
table, not the `transactions` frame that line 238 serializes). -/
theorem csv_header_not_visible_columns :
    (to_csv (get_transactions exStore1 none none none none)).head? =
      some ["id", "type", "amount", "category", "date", "description",
        "created_at"] ∧
    csvHeader ≠ ["date", "type", "category", "description", "amount"] := by
  decide

/-- C9 amended: serializing a transaction result set to CSV produces a
header row listing all seven stored columns in schema order
(id, type, amount, category, date, description, created_at), followed by
exactly one data row per transaction, each with one field per column. -/
theorem csv_export_shape (s : Store) (sd ed : Option String)
    (cats : Option (List String)) (ty : Option String) :
    to_csv (get_transactions s sd ed cats ty) =
      csvHeader :: (get_transactions s sd ed cats ty).map csvFields ∧
    (to_csv (get_transactions s sd ed cats ty)).length =
      (get_transactions s sd ed cats ty).length + 1 ∧
    ∀ r ∈ to_csv (get_transactions s sd ed cats ty),
      r.length = csvHeader.length := by
  refine ⟨rfl, by simp [to_csv], ?_⟩
  intro r hr
  simp only [to_csv, List.mem_cons, List.mem_map] at hr
  rcases hr with rfl | ⟨t, _, rfl⟩
  · rfl
  · rfl

/-! ## C3: filter semantics of `get_transactions` -/

theorem ifCond_start_iff (o : Option String) (t : Txn) :
    ((if truthyStr o then strLe (o.getD "") t.date else true) = true ↔
      ∀ d, o = some d → d ≠ "" → strLe d t.date = true) := by
  cases o with
  | none => simp [truthyStr]
  | some s =>
    by_cases hs : s = ""
    · subst hs; simp [truthyStr]
    · simp [truthyStr, hs]

theorem ifCond_end_iff (o : Option String) (t : Txn) :
    ((if truthyStr o then strLe t.date (o.getD "") else true) = true ↔
      ∀ d, o = some d → d ≠ "" → strLe t.date d = true) := by
  cases o with
  | none => simp [truthyStr]
  | some s =>
    by_cases hs : s = ""
    · subst hs; simp [truthyStr]
    · simp [truthyStr, hs]

theorem ifCond_cats_iff (o : Option (List String)) (t : Txn) :
    ((if truthyList o then decide (t.category ∈ o.getD []) else true) = true ↔
      ∀ cs, o = some cs → cs ≠ [] → t.category ∈ cs) := by
  cases o with
  | none => simp [truthyList]
  | some l =>
    by_cases hl : l = []
    · subst hl; simp [truthyList]
    · simp [truthyList, hl]

theorem ifCond_ty_iff (o : Option String) (t : Txn) :
    ((if truthyStr o then decide (t.type = o.getD "") else true) = true ↔
      ∀ k, o = some k → k ≠ "" → t.type = k) := by
  cases o with
  | none => simp [truthyStr]
  | some s =>
    by_cases hs : s = ""
    · subst hs; simp [truthyStr]
    · simp [truthyStr, hs]

theorem matchesFilters_iff (sd ed : Option String)
    (cats : Option (List String)) (ty : Option String) (t : Txn) :
    (matchesFilters sd ed cats ty t = true ↔
      ((∀ d, sd = some d → d ≠ "" → strLe d t.date = true) ∧
       (∀ d, ed = some d → d ≠ "" → strLe t.date d = true) ∧
       (∀ cs, cats = some cs → cs ≠ [] → t.category ∈ cs) ∧
       (∀ k, ty = some k → k ≠ "" → t.type = k))) := by
  simp only [matchesFilters, Bool.and_eq_true, ifCond_start_iff, ifCond_end_iff,
    ifCond_cats_iff, ifCond_ty_iff, and_assoc]

/-- C3 counterexample: with a provided-but-empty category set, the claim
requires every returned row's category to belong to that (empty) set, i.e.
an empty result — but `if categories:` is false for `[]` in Python, so the
WHERE clause is not extended and the row comes back anyway. -/
theorem get_transactions_empty_categories_counterexample :
    get_transactions exStore1 none none (some []) none = [exTxn1] ∧
    exTxn1.category ∉ ([] : List String) := by
  decide

/-- C3 amended: each provided filter field whose value is Python-truthy
(a non-empty string bound, a non-empty category set, a non-empty kind) is
applied, and all applied fields combine with logical AND — a row is
returned iff it is in the table and satisfies start_date <= date,
date <= end_date, category membership and kind equality for every truthy
field; a provided-but-falsy value (empty category list, empty-string bound
or kind) is skipped as if absent; with no filter fields the result is
exactly all rows. -/
theorem get_transactions_filter_semantics (s : Store)
    (sd ed : Option String) (cats : Option (List String))
    (ty : Option String) (t : Txn) :
    (t ∈ get_transactions s sd ed cats ty ↔
      (t ∈ s.txns ∧
       (∀ d, sd = some d → d ≠ "" → strLe d t.date = true) ∧
       (∀ d, ed = some d → d ≠ "" → strLe t.date d = true) ∧
       (∀ cs, cats = some cs → cs ≠ [] → t.category ∈ cs) ∧
       (∀ k, ty = some k → k ≠ "" → t.type = k))) ∧
    (get_transactions s none none none none).Perm s.txns := by
  constructor
  · rw [get_transactions, mem_sortBy, List.mem_filter, matchesFilters_iff]
  · have : s.txns.filter (matchesFilters none none none none) = s.txns :=
      List.filter_eq_self.mpr (fun t _ => rfl)
    rw [get_transactions, this]
    exact sortBy_perm _ _

/-- Witness for C3's amended theorem: a concrete row passes a concrete
conjunction of all four truthy filters. -/
theorem get_transactions_filter_semantics_witness :
    exTxn1 ∈ get_transactions exStore1 (some "2024-01-01")
      (some "2024-12-31") (some ["Salary"]) (some "income") := by
  refine ((get_transactions_filter_semantics exStore1 (some "2024-01-01")
      (some "2024-12-31") (some ["Salary"]) (some "income") exTxn1).1).mpr
    ⟨by decide, ?_, ?_, ?_, ?_⟩ <;>
    (intro x hx _; cases hx; decide)

/-! ## C2: the monthly summary -/

/-- The spec's income total for month `m`: the sum of the amounts of the
Income transactions whose year-month key is `m`. -/
def monthIncome (s : Store) (m : String) : Rat :=
  ((s.txns.filter (fun t => t.type = "income" ∧ monthKey t.date = m)).map
    Txn.amount).sum

/-- The spec's expense total for month `m`: the sum of the amounts of the
Expense transactions whose year-month key is `m`. -/
def monthExpense (s : Store) (m : String) : Rat :=
  ((s.txns.filter (fun t => t.type = "expense" ∧ monthKey t.date = m)).map
    Txn.amount).sum

theorem sum_if_filter (p q : Txn → Prop) [DecidablePred p] [DecidablePred q]
    (l : List Txn) :
    ((l.filter (fun t => decide (q t))).map
        (fun t => if p t then t.amount else 0)).sum =
      ((l.filter (fun t => decide (p t ∧ q t))).map Txn.amount).sum := by
  induction l with
  | nil => rfl
  | cons t ts ih =>
    by_cases hq : q t <;> by_cases hp : p t <;> simp [hq, hp, ih]

theorem sum_signed (l : List Txn)
    (h : ∀ t ∈ l, t.type = "income" ∨ t.type = "expense") :
    (l.map (fun t => if t.type = "income" then t.amount else -t.amount)).sum =
      (l.map (fun t => if t.type = "income" then t.amount else 0)).sum -
      (l.map (fun t => if t.type = "expense" then t.amount else 0)).sum := by
  induction l with
  | nil => simp
  | cons t ts ih =>
    have hts := ih (fun x hx => h x (List.mem_cons_of_mem _ hx))
    rcases h t (List.mem_cons_self _ _) with ht | ht
    · simp only [List.map_cons, List.sum_cons, ht, if_pos rfl, hts]
      have : ("income" : String) ≠ "expense" := by decide
      simp [this.symm]
      ring
    · have hni : t.type ≠ "income" := by rw [ht]; decide
      simp only [List.map_cons, List.sum_cons, ht, hts]
      have : ("expense" : String) ≠ "income" := by decide
      simp [this]
      ring

/-- C2: the monthly summary groups transactions by the year-month key of
their date; every result row's income is the sum of the Income amounts of
its month, its expense the sum of the Expense amounts, and its balance
income minus expense; a month appears in the result iff some transaction
falls in it (no zero-filled gap months). Stated for stores whose rows all
carry the kinds the application writes (`income`/`expense`). -/
theorem monthly_summary_correct (s : Store)
    (h : ∀ t ∈ s.txns, t.type = "income" ∨ t.type = "expense") :
    (∀ r ∈ get_monthly_summary s,
        r.income = monthIncome s r.month ∧
        r.expense = monthExpense s r.month ∧
        r.balance = r.income - r.expense) ∧
    (∀ m, (∃ r ∈ get_monthly_summary s, r.month = m) ↔
        ∃ t ∈ s.txns, monthKey t.date = m) := by
  constructor
  · intro r hr
    rcases List.mem_map.mp hr with ⟨m, _, rfl⟩
    refine ⟨?_, ?_, ?_⟩
    · simpa [monthIncome, monthRowOf] using
        sum_if_filter (fun t => t.type = "income")
          (fun t => monthKey t.date = m) s.txns
    · simpa [monthExpense, monthRowOf] using
        sum_if_filter (fun t => t.type = "expense")
          (fun t => monthKey t.date = m) s.txns
    · simpa [monthRowOf] using
        sum_signed (s.txns.filter (fun t => monthKey t.date = m))
          (fun t ht => h t (List.mem_filter.mp ht).1)
  · intro m
    constructor
    · rintro ⟨r, hr, rfl⟩
      rcases List.mem_map.mp hr with ⟨m', hm', rfl⟩
      have hmem := mem_sortBy.mp hm'
      rcases List.mem_map.mp (List.mem_dedup.mp hmem) with ⟨t, ht, rfl⟩
      exact ⟨t, ht, rfl⟩
    · rintro ⟨t, ht, rfl⟩
      refine ⟨monthRowOf s (monthKey t.date),
        List.mem_map.mpr ⟨monthKey t.date, ?_, rfl⟩, rfl⟩
      exact mem_sortBy.mpr (List.mem_dedup.mpr (List.mem_map.mpr ⟨t, ht, rfl⟩))

/-- The spec's worked example: an Income of 100 on 2024-01-15. -/
def exTxn2 : Txn := ⟨1, "income", 100, "Salary", "2024-01-15", "", "ts"⟩

/-- The spec's worked example: an Expense of 40 on 2024-01-20. -/
def exTxn3 : Txn := ⟨2, "expense", 40, "Food", "2024-01-20", "", "ts"⟩

/-- A store holding exactly the spec's two worked-example transactions. -/
def exStore2 : Store := ⟨[exTxn2, exTxn3], 3, [], 1⟩

/-- Witness for C2: on the spec's worked example the 2024-01 group has
income 100, expense 40 and balance 60, and it is the only group. -/
theorem monthly_summary_correct_witness :
    (∀ r ∈ get_monthly_summary exStore2,
        r.income = monthIncome exStore2 r.month ∧
        r.expense = monthExpense exStore2 r.month ∧
        r.balance = r.income - r.expense) ∧
    get_monthly_summary exStore2 = [⟨"2024-01", 100, 40, 60⟩] := by
  refine ⟨(monthly_summary_correct exStore2 (by decide)).1, ?_⟩
  have hne : (("expense" : String) = "income") = False := by
    simp only [eq_iff_iff, iff_false]; decide
  have hne2 : (("income" : String) = "expense") = False := by
    simp only [eq_iff_iff, iff_false]; decide
  norm_num [get_monthly_summary, monthKeys, monthKey, monthRowOf, exStore2,
    exTxn2, exTxn3, sortBy, insertLe, hne, hne2]

/-! ## C4: surrogate ids under sequences of inserts and deletes -/

/-- A store mutation the presentation layer can request: an insert with
its five user-supplied values plus the environment timestamp, or a
delete by surrogate id. -/
inductive Op where
  | add (transaction_type : String) (amount : Rat)
      (category date description now : String)
  | del (id : Nat)

/-- Whether an operation is an insert. -/
def Op.isAdd : Op → Bool
  | .add .. => true
  | .del _ => false

/-- Run one operation against the store. -/
def applyOp (s : Store) : Op → Store
  | .add ty a c d de n => (add_transaction s ty a c d de n).1
  | .del i => delete_transaction s i

/-- Run a sequence of operations against the store. -/
def execOps (s : Store) (ops : List Op) : Store := ops.foldl applyOp s

/-- The surrogate ids handed out to the inserts of a run, in order. -/
def assignedIds : Store → List Op → List Nat
  | _, [] => []
  | s, o :: rest =>
    match o with
    | .add .. => s.txnNextId :: assignedIds (applyOp s o) rest
    | .del _ => assignedIds (applyOp s o) rest

theorem txnNextId_applyOp (s : Store) (o : Op) :
    s.txnNextId ≤ (applyOp s o).txnNextId := by
  cases o with
  | add ty a c d de n => exact Nat.le_succ _
  | del i => exact Nat.le_refl _

theorem txnNextId_execOps (ops : List Op) (s : Store) :
    s.txnNextId ≤ (execOps s ops).txnNextId := by
  induction ops generalizing s with
  | nil => exact Nat.le_refl _
  | cons o rest ih =>
    exact Nat.le_trans (txnNextId_applyOp s o) (ih (applyOp s o))

theorem mem_assignedIds_bounds (ops : List Op) (s : Store) (i : Nat)
    (hi : i ∈ assignedIds s ops) :
    s.txnNextId ≤ i ∧ i < (execOps s ops).txnNextId := by
  induction ops generalizing s with
  | nil => cases hi
  | cons o rest ih =>
    cases o with
    | add ty a c d de n =>
      rcases List.mem_cons.mp hi with rfl | hi'
      · refine ⟨Nat.le_refl _, ?_⟩
        show s.txnNextId <
          (execOps (applyOp s (.add ty a c d de n)) rest).txnNextId
        exact Nat.lt_of_lt_of_le (Nat.lt_succ_self _)
          (txnNextId_execOps rest (applyOp s (.add ty a c d de n)))
      · rcases ih _ hi' with ⟨h1, h2⟩
        exact ⟨Nat.le_trans (Nat.le_succ _) h1, h2⟩
    | del j =>
      rcases ih _ hi with ⟨h1, h2⟩
      exact ⟨h1, h2⟩

theorem assignedIds_nodup (ops : List Op) (s : Store) :
    (assignedIds s ops).Nodup := by
  induction ops generalizing s with
  | nil => exact List.nodup_nil
  | cons o rest ih =>
    cases o with
    | add ty a c d de n =>
      refine List.nodup_cons.mpr ⟨?_, ih _⟩
      intro hmem
      have h2 : s.txnNextId + 1 ≤ s.txnNextId :=
        (mem_assignedIds_bounds rest _ _ hmem).1
      omega
    | del j => exact ih _

/-- The row-id invariant: every stored id is below the AUTOINCREMENT
counter, and the stored ids are pairwise distinct. -/
def IdsOk (s : Store) : Prop :=
  (∀ t ∈ s.txns, t.id < s.txnNextId) ∧ (s.txns.map Txn.id).Nodup

theorem idsOk_applyOp (s : Store) (o : Op) (h : IdsOk s) :
    IdsOk (applyOp s o) := by
  rcases h with ⟨hlt, hnd⟩
  cases o with
  | add ty a c d de n =>
    constructor
    · intro t ht
      rcases List.mem_append.mp ht with ht' | ht'
      · exact Nat.lt_trans (hlt t ht') (Nat.lt_succ_self _)
      · simp only [List.mem_singleton] at ht'
        subst ht'
        exact Nat.lt_succ_self _
    · simp only [applyOp, add_transaction, List.map_append, List.map_cons,
        List.map_nil]
      refine List.Nodup.append hnd (List.nodup_singleton _) ?_
      intro x hx hy
      simp only [List.mem_singleton] at hy
      subst hy
      rcases List.mem_map.mp hx with ⟨t, ht, hid⟩
      exact absurd hid (Nat.ne_of_lt (hlt t ht))
  | del j =>
    constructor
    · intro t ht
      exact hlt t (List.mem_of_mem_filter ht)
    · show ((s.txns.filter (fun t => t.id ≠ j)).map Txn.id).Nodup
      exact hnd.sublist ((List.filter_sublist s.txns).map Txn.id)

theorem idsOk_execOps (ops : List Op) (s : Store) (h : IdsOk s) :
    IdsOk (execOps s ops) := by
  induction ops generalizing s with
  | nil => exact h
  | cons o rest ih => exact ih _ (idsOk_applyOp s o h)

theorem length_execOps_adds (ops : List Op) (s : Store)
    (h : ∀ o ∈ ops, o.isAdd = true) :
    (execOps s ops).txns.length = s.txns.length + ops.length := by
  induction ops generalizing s with
  | nil => rfl
  | cons o rest ih =>
    cases o with
    | add ty a c d de n =>
      have := ih (applyOp s (.add ty a c d de n))
        (fun o ho => h o (List.mem_cons_of_mem _ ho))
      simp only [execOps, List.foldl_cons] at *
      rw [this]
      simp [applyOp, add_transaction]
      omega
    | del j =>
      exact absurd (h _ (List.mem_cons_self _ _)) (by simp [Op.isAdd])

/-- C4: after any sequence of operations starting from the empty store,
the stored surrogate ids are pairwise distinct; a pure insert sequence of
length n leaves exactly n rows in an unfiltered `get_transactions`; the
ids handed out during the run are pairwise distinct; and the id the next
insert would be assigned was never handed out before — even when the run
contained deletions, ids are not reused. -/
theorem add_sequences_have_fresh_unique_ids (ops : List Op) :
    ((execOps emptyStore ops).txns.map Txn.id).Nodup ∧
    ((∀ o ∈ ops, o.isAdd = true) →
      (get_transactions (execOps emptyStore ops)
        none none none none).length = ops.length) ∧
    (assignedIds emptyStore ops).Nodup ∧
    (execOps emptyStore ops).txnNextId ∉ assignedIds emptyStore ops := by
  refine ⟨?_, ?_, assignedIds_nodup ops emptyStore, ?_⟩
  · exact (idsOk_execOps ops emptyStore ⟨by simp [emptyStore], by
      simp [emptyStore]⟩).2
  · intro h
    have hall : (execOps emptyStore ops).txns.filter
        (matchesFilters none none none none) =
        (execOps emptyStore ops).txns :=
      List.filter_eq_self.mpr (fun t _ => rfl)
    rw [get_transactions, length_sortBy, hall]
    simpa [emptyStore] using length_execOps_adds ops emptyStore h
  · intro hmem
    exact absurd (mem_assignedIds_bounds ops emptyStore _ hmem).2
      (Nat.lt_irrefl _)

/-- Witness for C4: a concrete run of three inserts. -/
theorem add_sequences_have_fresh_unique_ids_witness :
    ((execOps emptyStore
        [.add "income" 5 "Salary" "2024-01-01" "" "t1",
         .add "expense" 3 "Food" "2024-01-02" "" "t2",
         .add "expense" 2 "Food" "2024-01-03" "" "t3"]).txns.map
      Txn.id).Nodup ∧
    (get_transactions (execOps emptyStore
        [.add "income" 5 "Salary" "2024-01-01" "" "t1",
         .add "expense" 3 "Food" "2024-01-02" "" "t2",
         .add "expense" 2 "Food" "2024-01-03" "" "t3"])
      none none none none).length = 3 :=
  ⟨(add_sequences_have_fresh_unique_ids _).1,
   (add_sequences_have_fresh_unique_ids _).2.1 (by decide)⟩

/-! ## C5: add_category and duplicate names -/

theorem get_categories_names (s : Store) (k n : String) :
    n ∈ get_categories s k ↔ ∃ c ∈ s.cats, c.type = k ∧ c.name = n := by
  rw [get_categories, mem_sortBy]
  simp only [List.mem_map, List.mem_filter, decide_eq_true_eq]
  constructor
  · rintro ⟨c, ⟨hc, hk⟩, hn⟩
    exact ⟨c, hc, hk, hn⟩
  · rintro ⟨c, hc, hk, hn⟩
    exact ⟨c, ⟨hc, hk⟩, hn⟩

theorem get_categories_nodup (s : Store) (hnd : (catNames s).Nodup)
    (k : String) : (get_categories s k).Nodup := by
  apply nodup_sortBy
  exact hnd.sublist ((List.filter_sublist s.cats).map Cat.name)

theorem catNames_add_category (s : Store) (name k : String)
    (h : name ∉ catNames s) :
    catNames (add_category s name k).1 = catNames s ++ [name] := by
  simp only [add_category]
  rw [if_neg h]
  simp [catNames]

/-- C5: `add_category(name, kind)` succeeds iff the name is absent: on a
fresh name it returns `True` and appends exactly one row; on a present
name it returns `False` and leaves the store untouched (the constraint
violation is swallowed, not raised). Uniqueness of names is preserved, so
no `get_categories` listing ever contains a duplicate name. -/
theorem add_category_success_iff (s : Store) (hnd : (catNames s).Nodup)
    (name k : String) :
    (name ∉ catNames s →
      (add_category s name k).2 = true ∧
      (add_category s name k).1.cats = s.cats ++ [⟨s.catNextId, name, k⟩]) ∧
    (name ∈ catNames s →
      (add_category s name k).2 = false ∧ (add_category s name k).1 = s) ∧
    (catNames (add_category s name k).1).Nodup ∧
    (∀ q, (get_categories (add_category s name k).1 q).Nodup) := by
  refine ⟨?_, ?_, ?_, ?_⟩
  · intro h
    simp [add_category, h]
  · intro h
    simp [add_category, h]
  · by_cases h : name ∈ catNames s
    · simpa [add_category, h] using hnd
    · rw [catNames_add_category s name k h]
      simp [List.nodup_append, hnd, h]
  · intro q
    apply get_categories_nodup
    by_cases h : name ∈ catNames s
    · simpa [add_category, h] using hnd
    · rw [catNames_add_category s name k h]
      simp [List.nodup_append, hnd, h]

/-- Witness for C5: on the freshly initialized store, adding the existing
name `Food` fails and changes nothing, while a fresh name `Rent` succeeds;
no listing contains duplicates. -/
theorem add_category_success_iff_witness :
    ((add_category (init_db emptyStore) "Rent" "expense").2 = true ∧
      (add_category (init_db emptyStore) "Rent" "expense").1.cats =
        (init_db emptyStore).cats ++
          [⟨(init_db emptyStore).catNextId, "Rent", "expense"⟩]) ∧
    ((add_category (init_db emptyStore) "Food" "expense").2 = false ∧
      (add_category (init_db emptyStore) "Food" "expense").1 =
        init_db emptyStore) ∧
    (get_categories (add_category (init_db emptyStore) "Rent" "expense").1
      "expense").Nodup :=
  ⟨(add_category_success_iff (init_db emptyStore) (by decide)
      "Rent" "expense").1 (by decide),
   (add_category_success_iff (init_db emptyStore) (by decide)
      "Food" "expense").2.1 (by decide),
   (add_category_success_iff (init_db emptyStore) (by decide)
      "Rent" "expense").2.2.2 "expense"⟩

/-! ## C6: idempotent initialization -/

theorem insertCatIgnore_of_mem (s : Store) (n ty : String)
    (h : n ∈ catNames s) : insertCatIgnore s n ty = s := by
  simp only [insertCatIgnore]
  rw [if_pos h]

theorem catNames_insertCatIgnore_of_not_mem (s : Store) (n ty : String)
    (hn : n ∉ catNames s) :
    catNames (insertCatIgnore s n ty) = catNames s ++ [n] := by
  simp only [insertCatIgnore]
  rw [if_neg hn]
  simp [catNames]

theorem mem_catNames_insertCatIgnore (s : Store) (n ty m : String)
    (h : m ∈ catNames s) : m ∈ catNames (insertCatIgnore s n ty) := by
  by_cases hn : n ∈ catNames s
  · rw [insertCatIgnore_of_mem s n ty hn]; exact h
  · rw [catNames_insertCatIgnore_of_not_mem s n ty hn]
    exact List.mem_append.mpr (Or.inl h)

theorem self_mem_insertCatIgnore (s : Store) (n ty : String) :
    n ∈ catNames (insertCatIgnore s n ty) := by
  by_cases hn : n ∈ catNames s
  · rw [insertCatIgnore_of_mem s n ty hn]; exact hn
  · rw [catNames_insertCatIgnore_of_not_mem s n ty hn]
    exact List.mem_append.mpr (Or.inr (List.mem_singleton_self _))

theorem nodup_insertCatIgnore (s : Store) (n ty : String)
    (h : (catNames s).Nodup) : (catNames (insertCatIgnore s n ty)).Nodup := by
  by_cases hn : n ∈ catNames s
  · rw [insertCatIgnore_of_mem s n ty hn]; exact h
  · rw [catNames_insertCatIgnore_of_not_mem s n ty hn]
    simp [List.nodup_append, h, hn]

theorem cats_insertCatIgnore_extend (s : Store) (n ty : String) :
    ∃ l, (insertCatIgnore s n ty).cats = s.cats ++ l := by
  by_cases hn : n ∈ catNames s
  · exact ⟨[], by rw [insertCatIgnore_of_mem s n ty hn]; simp⟩
  · refine ⟨[⟨s.catNextId, n, ty⟩], ?_⟩
    simp only [insertCatIgnore]
    rw [if_neg hn]

/-- One seeding pass of `init_db`: fold `insertCatIgnore` over a default
name list with a fixed kind tag. -/
def seedCats (names : List String) (ty : String) (s : Store) : Store :=
  names.foldl (fun st n => insertCatIgnore st n ty) s

theorem seedCats_mem_mono (names : List String) (ty m : String) :
    ∀ (s : Store), m ∈ catNames s → m ∈ catNames (seedCats names ty s) := by
  induction names with
  | nil => exact fun s h => h
  | cons n rest ih =>
    intro s h
    exact ih (insertCatIgnore s n ty) (mem_catNames_insertCatIgnore s n ty m h)

theorem seedCats_mem_self (names : List String) (ty n : String) :
    ∀ (s : Store), n ∈ names → n ∈ catNames (seedCats names ty s) := by
  induction names with
  | nil => exact fun s hn => absurd hn (List.not_mem_nil n)
  | cons n' rest ih =>
    intro s hn
    rcases List.mem_cons.mp hn with rfl | hmem
    · exact seedCats_mem_mono rest ty n (insertCatIgnore s n ty)
        (self_mem_insertCatIgnore s n ty)
    · exact ih (insertCatIgnore s n' ty) hmem

theorem seedCats_of_mem (names : List String) (ty : String) :
    ∀ (s : Store), (∀ n ∈ names, n ∈ catNames s) → seedCats names ty s = s := by
  induction names with
  | nil => exact fun s _ => rfl
  | cons n rest ih =>
    intro s h
    have hstep : insertCatIgnore s n ty = s :=
      insertCatIgnore_of_mem s n ty (h n (List.mem_cons_self _ _))
    show seedCats rest ty (insertCatIgnore s n ty) = s
    rw [hstep]
    exact ih s (fun m hm => h m (List.mem_cons_of_mem _ hm))

theorem seedCats_nodup (names : List String) (ty : String) :
    ∀ (s : Store), (catNames s).Nodup →
      (catNames (seedCats names ty s)).Nodup := by
  induction names with
  | nil => exact fun s h => h
  | cons n rest ih =>
    intro s h
    exact ih (insertCatIgnore s n ty) (nodup_insertCatIgnore s n ty h)

theorem seedCats_cats_extend (names : List String) (ty : String) :
    ∀ (s : Store), ∃ l, (seedCats names ty s).cats = s.cats ++ l := by
  induction names with
  | nil => exact fun s => ⟨[], by simp [seedCats]⟩
  | cons n rest ih =>
    intro s
    rcases cats_insertCatIgnore_extend s n ty with ⟨l1, h1⟩
    rcases ih (insertCatIgnore s n ty) with ⟨l2, h2⟩
    exact ⟨l1 ++ l2, by
      show (seedCats rest ty (insertCatIgnore s n ty)).cats = _
      rw [h2, h1, List.append_assoc]⟩

theorem init_db_eq_seeds (s : Store) :
    init_db s = seedCats default_income_categories "income"
      (seedCats default_expense_categories "expense" s) := rfl

/-- C6: initialization is idempotent for the category table: after any
number of `init_db` calls every default category name is present exactly
once, name uniqueness is preserved, a second call changes nothing, and
the pre-existing category rows (user-added ones included) survive
unchanged at the front of the table. -/
theorem init_db_idempotent (s : Store) (hnd : (catNames s).Nodup) :
    (∀ n ∈ default_expense_categories ++ default_income_categories,
        (catNames (init_db s)).count n = 1) ∧
    (catNames (init_db s)).Nodup ∧
    init_db (init_db s) = init_db s ∧
    (∃ l, (init_db s).cats = s.cats ++ l) := by
  have hmem : ∀ n ∈ default_expense_categories ++ default_income_categories,
      n ∈ catNames (init_db s) := by
    intro n hn
    rcases List.mem_append.mp hn with he | hi
    · exact seedCats_mem_mono _ _ _ _ (seedCats_mem_self _ _ _ _ he)
    · exact seedCats_mem_self _ _ _ _ hi
  have hnd' : (catNames (init_db s)).Nodup :=
    seedCats_nodup _ _ _ (seedCats_nodup _ _ _ hnd)
  refine ⟨fun n hn => List.count_eq_one_of_mem hnd' (hmem n hn), hnd', ?_, ?_⟩
  · rw [init_db_eq_seeds (init_db s),
      seedCats_of_mem _ _ _ (fun n hn =>
        hmem n (List.mem_append.mpr (Or.inl hn))),
      seedCats_of_mem _ _ _ (fun n hn =>
        hmem n (List.mem_append.mpr (Or.inr hn)))]
  · rcases seedCats_cats_extend default_expense_categories "expense" s
      with ⟨l1, h1⟩
    rcases seedCats_cats_extend default_income_categories "income"
      (seedCats default_expense_categories "expense" s) with ⟨l2, h2⟩
    exact ⟨l1 ++ l2, by
      rw [init_db_eq_seeds, h2, h1, List.append_assoc]⟩

/-- Witness for C6 at the empty store. -/
theorem init_db_idempotent_witness :
    (catNames (init_db emptyStore)).count "Others" = 1 ∧
    init_db (init_db emptyStore) = init_db emptyStore :=
  ⟨(init_db_idempotent emptyStore (by decide)).1 "Others" (by decide),
   (init_db_idempotent emptyStore (by decide)).2.2.1⟩

/-! ## C8: deleteTransaction (modelled from the spec) -/

/-- C8: after `delete_transaction(id)` no listing ever returns a row with
that id; deleting an id that is not present is a silent no-op returning
the store unchanged; deleting twice is the same as deleting once; and the
AUTOINCREMENT counter is untouched. -/
theorem delete_transaction_spec (s : Store) (i : Nat) :
    (∀ sd ed cats ty t,
      t ∈ get_transactions (delete_transaction s i) sd ed cats ty →
        t.id ≠ i) ∧
    ((∀ t ∈ s.txns, t.id ≠ i) → delete_transaction s i = s) ∧
    delete_transaction (delete_transaction s i) i = delete_transaction s i ∧
    (delete_transaction s i).txnNextId = s.txnNextId := by
  refine ⟨?_, ?_, ?_, rfl⟩
  · intro sd ed cats ty t ht
    have h1 : t ∈ (delete_transaction s i).txns :=
      (List.mem_filter.mp (mem_sortBy.mp ht)).1
    simpa using (List.mem_filter.mp h1).2
  · intro h
    obtain ⟨tx, ni, cs, nc⟩ := s
    simp only [delete_transaction]
    congr 1
    refine List.filter_eq_self.mpr ?_
    intro t ht
    simpa using h t ht
  · simp only [delete_transaction]
    congr 1
    refine List.filter_eq_self.mpr ?_
    intro t ht
    exact (List.mem_filter.mp ht).2

/-- Witness for C8: deleting the absent id 5 from a one-row store is a
no-op, and after deleting id 1 no listing contains id 1. -/
theorem delete_transaction_spec_witness :
    delete_transaction exStore1 5 = exStore1 ∧
    (∀ t ∈ get_transactions (delete_transaction exStore1 1)
        none none none none, t.id ≠ 1) :=
  ⟨(delete_transaction_spec exStore1 5).2.1 (by decide),
   fun t ht => (delete_transaction_spec exStore1 1).1 none none none none t ht⟩

/-! ## C10: category names are globally unique across kinds -/

/-- C10: the UNIQUE constraint is on the name alone, so a name that exists
under one kind cannot be added under the other (`add_category` returns
`False` and changes nothing), and no name is listed under both kinds.
Concretely, `Others` appears in both default lists, the expense defaults
are inserted first, so after initializing an empty store `Others` is an
expense category only and is absent from the income listing. -/
theorem category_names_unique_across_kinds (s : Store)
    (hnd : (catNames s).Nodup) (name q : String) :
    (name ∈ catNames s → add_category s name q = (s, false)) ∧
    (∀ n, ¬(n ∈ get_categories s "income" ∧ n ∈ get_categories s "expense")) ∧
    "Others" ∈ get_categories (init_db emptyStore) "expense" ∧
    "Others" ∉ get_categories (init_db emptyStore) "income" := by
  refine ⟨fun h => by simp [add_category, h], ?_, by decide, by decide⟩
  rintro n ⟨hi, he⟩
  rcases (get_categories_names s "income" n).mp hi with ⟨c1, hc1, ht1, hn1⟩
  rcases (get_categories_names s "expense" n).mp he with ⟨c2, hc2, ht2, hn2⟩
  have hcc : c1 = c2 :=
    List.inj_on_of_nodup_map hnd hc1 hc2 (hn1.trans hn2.symm)
  have : ("income" : String) = "expense" := ht1 ▸ hcc ▸ ht2
  exact absurd this (by decide)

/-- Witness for C10: on the freshly initialized store, re-adding `Others`
under the income kind fails because the name already exists as an expense
category. -/
theorem category_names_unique_across_kinds_witness :
    add_category (init_db emptyStore) "Others" "income" =
      (init_db emptyStore, false) ∧
    "Others" ∉ get_categories (init_db emptyStore) "income" :=
  ⟨(category_names_unique_across_kinds (init_db emptyStore) (by decide)
      "Others" "income").1 (by decide),
   (category_names_unique_across_kinds (init_db emptyStore) (by decide)
      "Others" "income").2.2.2⟩
